import Mathlib

/-!
# Video converter client: the request lifecycle of `src/App.js`

A shallow embedding of the `App` component's state hooks and handlers
(`handleFile`, `handleConvert`, the progress interval, `resetForm`, the
Convert button) together with the asynchronous activity they start
(interval timers, outstanding `fetch` calls, the 3 second reset timeout).

Conventions of the embedding:
* JavaScript strings are `String`; `split`, `pop`, `[0]` are defined on the
  character lists.  `toLowerCase` and `toUpperCase` apply the Unicode case
  mappings of the JavaScript engine; the engine is an argument (`Engine`) of
  every definition that calls them, and the theorems hold for every engine.
* JavaScript numbers are exact rationals.  `Math.random()` is an argument
  `u` of the interval tick with `0 ≤ u < 1`.
* One event is handled at a time.  A handler and the attributes of the
  button belong to a render: `handleConvertOf view` and `clickRendered view`
  are those of the render of the hooks `view`.  In a trace (`run`) React has
  committed a render after each event, so there the render is that of the
  current hooks (`handleConvert`, `clickConvert`).  Values that a running
  `handleConvert` keeps in its closure (`selectedFile`, `toFormat`, the
  interval handle, `fakeProgress`) are stored in a `Call` record.
-/

namespace VideoConverter

/-! ## Strings -/

/-- JavaScript `s.split(sep)` for a one-character separator, on character lists. -/
def splitChars (sep : Char) : List Char → List (List Char)
  | [] => [[]]
  | c :: cs =>
    if c = sep then [] :: splitChars sep cs
    else (c :: (splitChars sep cs).headD []) :: (splitChars sep cs).tail

/-- JavaScript `s.split(sep)` for a one-character separator. -/
def split (s : String) (sep : Char) : List String :=
  (splitChars sep s.data).map String.mk

/-- JavaScript `arr.pop()` as a value: the last element (`split` never returns `[]`). -/
def pop (arr : List String) : String :=
  arr.getLastD ""

/-- JavaScript `arr[0]` (`split` never returns `[]`). -/
def first (arr : List String) : String :=
  arr.headD ""

/-- The two string methods of the JavaScript engine that `App.js` calls.  They apply the
Unicode case mappings, which are data of the engine and not of this repository: every
definition that calls them takes the engine as an argument. -/
structure Engine where
  toLowerCase : String → String
  toUpperCase : String → String

/-- The Unicode lower case of the characters used in the examples: the Basic Latin capitals
and the Kelvin sign U+212A, whose lower case is `k`. -/
def latinLower (c : Char) : Char :=
  if c = Char.ofNat 0x212A then 'k' else c.toLower

/-- The Unicode upper case of the characters used in the examples: the Basic Latin small
letters and the sharp s U+00DF, whose upper case is the two letters `SS`. -/
def latinUpper (c : Char) : List Char :=
  if c = Char.ofNat 0xDF then ['S', 'S'] else [c.toUpper]

/-- The engine of the examples: the Unicode case mappings on strings of Basic Latin
characters, the Kelvin sign and the sharp s. -/
def latinEngine : Engine :=
  { toLowerCase := fun s => String.mk (s.data.map latinLower)
    toUpperCase := fun s => String.mk ((s.data.map latinUpper).flatten) }

/-! ## Data model -/

/-- A browser `File` handle: the attributes the component reads. -/
structure File where
  name : String
  size : Nat
deriving DecidableEq, Repr

/-- The `useState` hooks of `App` (lines 13-21). -/
structure State where
  selectedFile : Option File
  fromFormat : String
  toFormat : String
  isConverting : Bool
  progress : ℚ
  showSuccess : Bool
  showError : Bool
  errorMessage : String
  isDragOver : Bool
deriving DecidableEq, Repr

/-- The initial values of the hooks. -/
def State.init : State :=
  { selectedFile := none, fromFormat := "", toFormat := "", isConverting := false,
    progress := 0, showSuccess := false, showError := false, errorMessage := "",
    isDragOver := false }

/-- The format catalog (lines 24-38). -/
def supportedFormats : List String :=
  ["mp4", "mkv", "mov", "avi", "webm", "flv", "wmv", "m4v", "3gp", "ogv"]

/-! ## Intake -/

/-- Line 47: `file.name.split(".").pop().toLowerCase()`. -/
def fileExtension (js : Engine) (file : File) : String :=
  js.toLowerCase (pop (split file.name '.'))

/-- The message of line 50. -/
def unsupportedMessage (js : Engine) (ext : String) : String :=
  "Unsupported file format: ." ++ js.toUpperCase ext ++
    ". Please select a supported video file."

/-- The handler `handleFile` (lines 45-62). -/
def handleFile (js : Engine) (s : State) (file : File) : State :=
  let ext := fileExtension js file
  if ¬ ext ∈ supportedFormats then
    { s with errorMessage := unsupportedMessage js ext, showError := true,
             showSuccess := false }
  else
    { s with selectedFile := some file, fromFormat := ext, showError := false,
             showSuccess := false }

/-- The handler `handleDragOver` (lines 64-67). -/
def handleDragOver (s : State) : State :=
  { s with isDragOver := true }

/-- The handler `handleDragLeave` (lines 69-72). -/
def handleDragLeave (s : State) : State :=
  { s with isDragOver := false }

/-- The handler `handleDrop` (lines 74-82): only the first file of a drop is taken. -/
def handleDrop (js : Engine) (s : State) (files : List File) : State :=
  match files with
  | [] => { s with isDragOver := false }
  | f :: _ => handleFile js { s with isDragOver := false } f

/-- The handler `handleFileSelect` (lines 84-87). -/
def handleFileSelect (js : Engine) (s : State) (files : List File) : State :=
  match files with
  | [] => s
  | f :: _ => handleFile js s f

/-- The handler `resetForm` (lines 158-168), on the hooks. -/
def resetForm (s : State) : State :=
  { s with selectedFile := none, fromFormat := "", toFormat := "", isConverting := false,
           progress := 0, showSuccess := false, showError := false, errorMessage := "" }

/-! ## Submission -/

/-- Where a running `handleConvert` is suspended. -/
inductive Phase where
  | awaitingFetch
  | awaitingBlob
  | done
deriving DecidableEq, Repr

/-- One invocation of `handleConvert` that passed the guards: the values of its closure
(`selectedFile`, `toFormat`), its local `fakeProgress`, whether its interval is still
scheduled, and where it is suspended.  The POST of line 125 carries `file` and `toFormat`. -/
structure Call where
  file : File
  toFormat : String
  fakeProgress : ℚ
  intervalActive : Bool
  phase : Phase
deriving DecidableEq, Repr

/-- The component together with the activity it has started. -/
structure Sys where
  ui : State
  /-- Every `handleConvert` that issued a `fetch`, oldest first; a call is named by its index. -/
  calls : List Call
  /-- Names given to `downloadLink.download` (line 139), oldest first. -/
  downloads : List String
  /-- Arguments of the successive `setProgress` calls, oldest first. -/
  progressLog : List ℚ
  /-- Number of `setTimeout(resetForm, 3000)` callbacks scheduled and not yet run. -/
  resetTimers : Nat
deriving DecidableEq, Repr

/-- The component just mounted. -/
def Sys.init : Sys :=
  { ui := State.init, calls := [], downloads := [], progressLog := [], resetTimers := 0 }

/-- The message of line 100. -/
def missingMessage : String := "Please select a file and output format."

/-- The message of line 105. -/
def identicalMessage : String := "Source and target formats cannot be the same."

/-- The handler `handleConvert` created by the render of the hooks `view`, up to its first
`await` (lines 98-128).  It reads `selectedFile`, `toFormat` and `fromFormat` from its
closure, the values of that render, and writes through the setters.
`!selectedFile || !toFormat` is one guard with one message; `""` is the falsy target. -/
def handleConvertOf (view : State) (s : Sys) : Sys :=
  match view.selectedFile with
  | none =>
    { s with ui := { s.ui with errorMessage := missingMessage, showError := true } }
  | some file =>
    if view.toFormat = "" then
      { s with ui := { s.ui with errorMessage := missingMessage, showError := true } }
    else if view.fromFormat = view.toFormat then
      { s with ui := { s.ui with errorMessage := identicalMessage, showError := true } }
    else
      { s with
        ui := { s.ui with isConverting := true, progress := 0 }
        progressLog := s.progressLog ++ [0]
        calls := s.calls ++ [{ file := file, toFormat := view.toFormat, fakeProgress := 0,
                               intervalActive := true, phase := Phase.awaitingFetch }] }

/-- The handler `handleConvert` of the render of the current hooks. -/
def handleConvert (s : Sys) : Sys :=
  handleConvertOf s.ui s

/-- Line 170: `selectedFile && toFormat && fromFormat !== toFormat`, as a truth value. -/
def canConvert (s : State) : Bool :=
  s.selectedFile.isSome && s.toFormat != "" && s.fromFormat != s.toFormat

/-- Line 352: the `disabled` attribute of the Convert button. -/
def convertDisabled (s : State) : Bool :=
  !canConvert s || s.isConverting

/-- A click on the Convert button of the render of the hooks `view` (lines 286, 350-352):
that render has the button only while a file is selected, a disabled button does not call
`onClick`, and `onClick` is the `handleConvert` of that render. -/
def clickRendered (view : State) (s : Sys) : Sys :=
  if view.selectedFile.isSome && !convertDisabled view then handleConvertOf view s else s

/-- A click on the Convert button once the render of the current hooks is committed. -/
def clickConvert (s : Sys) : Sys :=
  clickRendered s.ui s

/-- The interval callback of one call (lines 119-123): the call afterwards and the value
passed to `setProgress`.  `u` is the value of `Math.random()`. -/
def intervalCallback (c : Call) (u : ℚ) : Call × ℚ :=
  let fake := c.fakeProgress + u * 10
  ({ c with fakeProgress := fake, intervalActive := if fake ≥ 90 then false else c.intervalActive },
   min fake 90)

/-- A 200 ms tick of the interval of call `id`; a cleared interval does not run. -/
def intervalTick (s : Sys) (id : Nat) (u : ℚ) : Sys :=
  match s.calls[id]? with
  | none => s
  | some c =>
    if c.intervalActive then
      { s with
        calls := s.calls.set id (intervalCallback c u).1
        ui := { s.ui with progress := (intervalCallback c u).2 }
        progressLog := s.progressLog ++ [(intervalCallback c u).2] }
    else s

/-- How the `fetch` of line 125 settles. -/
inductive FetchResult where
  | rejected (message : String)
  | response (ok : Bool)
deriving DecidableEq, Repr

/-- How `response.blob()` of line 134 settles. -/
inductive BlobResult where
  | rejected (message : String)
  | blob
deriving DecidableEq, Repr

/-- The `catch` and `finally` blocks (lines 146-155) for call `id`. -/
def failCall (s : Sys) (id : Nat) (c : Call) (message : String) : Sys :=
  { s with
    calls := s.calls.set id { c with phase := Phase.done }
    ui := { s.ui with errorMessage := message, showError := true, showSuccess := false,
                      isConverting := false }
    resetTimers := s.resetTimers + 1 }

/-- Line 139: `selectedFile.name.split(".")[0] + "." + toFormat`. -/
def downloadName (file : File) (toFormat : String) : String :=
  first (split file.name '.') ++ "." ++ toFormat

/-- Call `id` resumes after `await fetch(...)` (lines 125-134).  A rejected `fetch` jumps to
`catch` past `clearInterval`; a response clears the interval first. -/
def fetchSettled (s : Sys) (id : Nat) (r : FetchResult) : Sys :=
  match s.calls[id]? with
  | none => s
  | some c =>
    if c.phase = Phase.awaitingFetch then
      match r with
      | FetchResult.rejected message => failCall s id c message
      | FetchResult.response false =>
        failCall s id { c with intervalActive := false } "Conversion failed"
      | FetchResult.response true =>
        { s with calls := s.calls.set id { c with intervalActive := false,
                                                   phase := Phase.awaitingBlob } }
    else s

/-- Call `id` resumes after `await response.blob()` (lines 134-155). -/
def blobSettled (s : Sys) (id : Nat) (r : BlobResult) : Sys :=
  match s.calls[id]? with
  | none => s
  | some c =>
    if c.phase = Phase.awaitingBlob then
      match r with
      | BlobResult.rejected message => failCall s id c message
      | BlobResult.blob =>
        { s with
          calls := s.calls.set id { c with phase := Phase.done }
          downloads := s.downloads ++ [downloadName c.file c.toFormat]
          progressLog := s.progressLog ++ [100]
          ui := { s.ui with progress := 100, showSuccess := true, showError := false,
                            isConverting := false }
          resetTimers := s.resetTimers + 1 }
    else s

/-- A reset timeout expires (lines 152-154): `resetForm` runs. -/
def timeoutFire (s : Sys) : Sys :=
  if s.resetTimers = 0 then s
  else { s with ui := resetForm s.ui, progressLog := s.progressLog ++ [0],
                resetTimers := s.resetTimers - 1 }

/-- The events the component reacts to. -/
inductive Event where
  | dragOver
  | dragLeave
  | drop (files : List File)
  | fileSelect (files : List File)
  | selectTarget (value : String)
  | click
  | tick (id : Nat) (u : ℚ)
  | fetched (id : Nat) (r : FetchResult)
  | blobbed (id : Nat) (r : BlobResult)
  | timeout
deriving DecidableEq, Repr

/-- The reaction to one event, handled on the committed render of the current hooks. -/
def step (js : Engine) (s : Sys) : Event → Sys
  | Event.dragOver => { s with ui := handleDragOver s.ui }
  | Event.dragLeave => { s with ui := handleDragLeave s.ui }
  | Event.drop files => { s with ui := handleDrop js s.ui files }
  | Event.fileSelect files => { s with ui := handleFileSelect js s.ui files }
  | Event.selectTarget value => { s with ui := { s.ui with toFormat := value } }
  | Event.click => clickConvert s
  | Event.tick id u => intervalTick s id u
  | Event.fetched id r => fetchSettled s id r
  | Event.blobbed id r => blobSettled s id r
  | Event.timeout => timeoutFire s

/-- The reaction to a sequence of events, in order. -/
def run (js : Engine) (s : Sys) (events : List Event) : Sys :=
  events.foldl (step js) s

/-- Whether an event resumes call `n` after one of its two `await`s. -/
def settles (n : Nat) : Event → Bool
  | Event.fetched id _ => id == n
  | Event.blobbed id _ => id == n
  | _ => false

/-- Whether an event is the expiry of a reset timeout. -/
def isTimeout : Event → Bool
  | Event.timeout => true
  | _ => false

/-- The call after the ticks of its own interval whose `Math.random()` values are `us`. -/
def afterTicks (c : Call) : List ℚ → Call
  | [] => c
  | u :: us =>
    if c.intervalActive then afterTicks (intervalCallback c u).1 us else afterTicks c us

/-- The values passed to `setProgress` by those ticks, in order. -/
def published (c : Call) : List ℚ → List ℚ
  | [] => []
  | u :: us =>
    if c.intervalActive then
      (intervalCallback c u).2 :: published (intervalCallback c u).1 us
    else published c us

/-- The call record that `handleConvert` creates. -/
def newCall (file : File) (toFormat : String) : Call :=
  { file := file, toFormat := toFormat, fakeProgress := 0, intervalActive := true,
    phase := Phase.awaitingFetch }

/-- The events by which call `n` resolves: its `fetch` settles with `r` and, when that is an
ok response, `response.blob()` settles with `b` after the events `between`. -/
def settlement (n : Nat) (r : FetchResult) (between : List Event) (b : BlobResult) :
    List Event :=
  match r with
  | FetchResult.response true => Event.fetched n r :: (between ++ [Event.blobbed n b])
  | _ => [Event.fetched n r]

/-! ## The spec's words for the two name segments -/

/-- Follows the spec's words: the portion of a name before its first `.`
(the whole name when it has no `.`). -/
def beforeFirstDot (name : String) : String :=
  String.mk (name.data.takeWhile (fun c => c != '.'))

/-- Follows the spec's words: the substring of a name after its last `.`, the trailing
dot-segment (the whole name when it has no `.`). -/
def afterLastDot (name : String) : String :=
  String.mk ((name.data.reverse.takeWhile (fun c => c != '.')).reverse)

/-- Follows the spec's words: the three precondition failures of `submit`. -/
inductive SubmissionError where
  | MissingFile
  | MissingTarget
  | IdenticalFormats
deriving DecidableEq, Repr

/-- Follows the spec's words: "a file must be present; a target format must be chosen;
`sourceFormat ≠ targetFormat`", checked in order, first failure wins. -/
def submissionError (s : State) : Option SubmissionError :=
  if s.selectedFile = none then some SubmissionError.MissingFile
  else if s.toFormat = "" then some SubmissionError.MissingTarget
  else if s.fromFormat = s.toFormat then some SubmissionError.IdenticalFormats
  else none

/-! ## Lemmas on `split` -/

theorem splitChars_ne_nil (sep : Char) (cs : List Char) : splitChars sep cs ≠ [] := by
  cases cs with
  | nil => simp [splitChars]
  | cons c cs => by_cases h : c = sep <;> simp [splitChars, h]

theorem splitChars_cons_head_tail (sep : Char) (cs : List Char) :
    (splitChars sep cs).headD [] :: (splitChars sep cs).tail = splitChars sep cs := by
  cases h : splitChars sep cs with
  | nil => exact absurd h (splitChars_ne_nil sep cs)
  | cons w ws => rfl

theorem splitChars_append (sep : Char) (pre rest : List Char) :
    splitChars sep (pre ++ sep :: rest) = splitChars sep pre ++ splitChars sep rest := by
  induction pre with
  | nil => simp [splitChars]
  | cons c p ih =>
    by_cases h : c = sep
    · simp [splitChars, h, ih]
    · have hp := splitChars_cons_head_tail sep p
      cases hw : splitChars sep p with
      | nil => exact absurd hw (splitChars_ne_nil sep p)
      | cons w ws => simp [splitChars, h, ih, hw]

theorem splitChars_of_not_mem (sep : Char) (cs : List Char) (h : sep ∉ cs) :
    splitChars sep cs = [cs] := by
  induction cs with
  | nil => rfl
  | cons c cs ih =>
    have hc : c ≠ sep := fun e => h (by simp [e])
    have hcs : sep ∉ cs := fun e => h (List.mem_cons_of_mem _ e)
    simp [splitChars, hc, ih hcs]

theorem splitChars_head (sep : Char) (cs : List Char) :
    (splitChars sep cs).headD [] = cs.takeWhile (fun c => c != sep) := by
  induction cs with
  | nil => rfl
  | cons c cs ih =>
    by_cases h : c = sep
    · simp [splitChars, h]
    · simpa [splitChars, h, List.takeWhile_cons] using ih

theorem splitChars_getLast (sep : Char) (cs : List Char) :
    (splitChars sep cs).getLast? =
      some ((cs.reverse.takeWhile (fun c => c != sep)).reverse) := by
  by_cases h : sep ∈ cs
  · have h2 : sep ∈ cs.reverse := List.mem_reverse.mpr h
    obtain ⟨as, bs, hab, hnot⟩ := List.eq_append_cons_of_mem h2
    have hcs : cs = bs.reverse ++ sep :: as.reverse := by
      have := congrArg List.reverse hab
      simpa using this
    have hall : ∀ a ∈ as, (fun c => c != sep) a = true := by
      intro a ha
      have : a ≠ sep := fun e => hnot (e ▸ ha)
      simpa using this
    have hnot2 : sep ∉ as.reverse := fun e => hnot (List.mem_reverse.mp e)
    rw [hab, List.takeWhile_append_of_pos hall, hcs, splitChars_append,
      splitChars_of_not_mem sep _ hnot2]
    simp
  · have hall : ∀ a ∈ cs.reverse, (fun c => c != sep) a = true := by
      intro a ha
      have : a ≠ sep := fun e => h (e ▸ List.mem_reverse.mp ha)
      simpa using this
    rw [splitChars_of_not_mem sep cs h, List.takeWhile_eq_self_iff.mpr hall]
    simp

/-- The code's `name.split(".").pop()` is the substring after the last `.`. -/
theorem pop_split_eq_afterLastDot (name : String) :
    pop (split name '.') = afterLastDot name := by
  simp [pop, split, afterLastDot, splitChars_getLast]

/-- The code's `name.split(".")[0]` is the portion before the first `.`. -/
theorem first_split_eq_beforeFirstDot (name : String) :
    first (split name '.') = beforeFirstDot name := by
  have h := splitChars_head '.' name.data
  have hne := splitChars_ne_nil '.' name.data
  cases hs : splitChars '.' name.data with
  | nil => exact absurd hs hne
  | cons w ws =>
    rw [hs] at h
    simp only [List.headD_cons] at h
    simp [first, split, beforeFirstDot, hs, h]

theorem fileExtension_eq {js : Engine} (file : File) :
    fileExtension js file = js.toLowerCase (afterLastDot file.name) := by
  simp [fileExtension, pop_split_eq_afterLastDot]

/-! ## Lemmas on the event system -/

theorem run_nil {js : Engine} (s : Sys) : run js s [] = s := rfl

theorem run_cons {js : Engine} (s : Sys) (e : Event) (es : List Event) :
    run js s (e :: es) = run js (step js s e) es := rfl

theorem run_append {js : Engine} (s : Sys) (es fs : List Event) :
    run js s (es ++ fs) = run js (run js s es) fs := by
  simp [run, List.foldl_append]

theorem lt_of_getElem?_eq_some {α : Type} {l : List α} {n : Nat} {a : α}
    (h : l[n]? = some a) : n < l.length := by
  rcases List.getElem?_eq_some.mp h with ⟨hn, _⟩
  exact hn

/-- A `handleConvert` whose render passes the guards. -/
theorem handleConvertOf_started (view : State) (s : Sys) (file : File)
    (hf : view.selectedFile = some file) (ht : view.toFormat ≠ "")
    (hne : view.fromFormat ≠ view.toFormat) :
    handleConvertOf view s =
      { s with
        ui := { s.ui with isConverting := true, progress := 0 }
        progressLog := s.progressLog ++ [0]
        calls := s.calls ++ [newCall file view.toFormat] } := by
  simp [handleConvertOf, hf, ht, hne, newCall]

/-- A `handleConvert` that passes the guards. -/
theorem handleConvert_started (s : Sys) (file : File) (hf : s.ui.selectedFile = some file)
    (ht : s.ui.toFormat ≠ "") (hne : s.ui.fromFormat ≠ s.ui.toFormat) :
    handleConvert s =
      { s with
        ui := { s.ui with isConverting := true, progress := 0 }
        progressLog := s.progressLog ++ [0]
        calls := s.calls ++ [newCall file s.ui.toFormat] } :=
  handleConvertOf_started s.ui s file hf ht hne

theorem handleConvertOf_calls (view : State) (s : Sys) :
    (handleConvertOf view s).calls = s.calls ∨
      ∃ c, (handleConvertOf view s).calls = s.calls ++ [c] := by
  unfold handleConvertOf
  cases hf : view.selectedFile with
  | none => simp
  | some file =>
    by_cases ht : view.toFormat = ""
    · simp [ht]
    · by_cases he : view.fromFormat = view.toFormat
      · simp [ht, he]
      · simp [ht, he]

theorem handleConvertOf_resetTimers (view : State) (s : Sys) :
    (handleConvertOf view s).resetTimers = s.resetTimers := by
  unfold handleConvertOf
  cases hf : view.selectedFile with
  | none => simp
  | some file =>
    by_cases ht : view.toFormat = ""
    · simp [ht]
    · by_cases he : view.fromFormat = view.toFormat
      · simp [ht, he]
      · simp [ht, he]

/-- An event that does not resume call `n` leaves its closure values and its phase alone. -/
theorem step_call_kept {js : Engine} (s : Sys) (e : Event) (n : Nat) (c : Call)
    (hc : s.calls[n]? = some c) (he : settles n e = false) :
    ∃ c2, (step js s e).calls[n]? = some c2 ∧ c2.file = c.file ∧ c2.toFormat = c.toFormat ∧
      c2.phase = c.phase := by
  have hn := lt_of_getElem?_eq_some hc
  cases e with
  | dragOver => exact ⟨c, hc, rfl, rfl, rfl⟩
  | dragLeave => exact ⟨c, hc, rfl, rfl, rfl⟩
  | drop files => exact ⟨c, hc, rfl, rfl, rfl⟩
  | fileSelect files => exact ⟨c, hc, rfl, rfl, rfl⟩
  | selectTarget value => exact ⟨c, hc, rfl, rfl, rfl⟩
  | timeout =>
    refine ⟨c, ?_, rfl, rfl, rfl⟩
    simp only [step, timeoutFire]
    split <;> exact hc
  | click =>
    refine ⟨c, ?_, rfl, rfl, rfl⟩
    simp only [step, clickConvert, clickRendered]
    split
    · rcases handleConvertOf_calls s.ui s with h | ⟨x, h⟩
      · rw [h]; exact hc
      · rw [h, List.getElem?_append_left hn]; exact hc
    · exact hc
  | tick id u =>
    simp only [step, intervalTick]
    by_cases hid : id = n
    · subst hid
      rw [hc]
      by_cases ha : c.intervalActive = true
      · refine ⟨(intervalCallback c u).1, ?_, rfl, rfl, rfl⟩
        simp [ha, List.getElem?_set_self hn]
      · refine ⟨c, ?_, rfl, rfl, rfl⟩
        simp [ha, hc]
    · refine ⟨c, ?_, rfl, rfl, rfl⟩
      split
      · exact hc
      · split
        · simp [List.getElem?_set_ne hid, hc]
        · exact hc
  | fetched id r =>
    have hid : id ≠ n := by simpa [settles] using he
    refine ⟨c, ?_, rfl, rfl, rfl⟩
    simp only [step, fetchSettled]
    split
    · exact hc
    · split
      · split <;> simp [failCall, List.getElem?_set_ne hid, hc]
      · exact hc
  | blobbed id r =>
    have hid : id ≠ n := by simpa [settles] using he
    refine ⟨c, ?_, rfl, rfl, rfl⟩
    simp only [step, blobSettled]
    split
    · exact hc
    · split
      · split <;> simp [failCall, List.getElem?_set_ne hid, hc]
      · exact hc

theorem run_call_kept (js : Engine) (n : Nat) (es : List Event) :
    ∀ (s : Sys) (c : Call), s.calls[n]? = some c → (∀ e ∈ es, settles n e = false) →
      ∃ c2, (run js s es).calls[n]? = some c2 ∧ c2.file = c.file ∧ c2.toFormat = c.toFormat ∧
        c2.phase = c.phase := by
  induction es with
  | nil => intro s c hc _; exact ⟨c, hc, rfl, rfl, rfl⟩
  | cons e es ih =>
    intro s c hc hes
    obtain ⟨c1, h1, hf1, ht1, hp1⟩ :=
      step_call_kept s e n c hc (hes e (List.mem_cons_self _ _))
    obtain ⟨c2, h2, hf2, ht2, hp2⟩ :=
      ih (step js s e) c1 h1 (fun x hx => hes x (List.mem_cons_of_mem _ hx))
    exact ⟨c2, h2, hf2.trans hf1, ht2.trans ht1, hp2.trans hp1⟩

/-- Only the expiry of a timeout takes a scheduled reset away. -/
theorem step_resetTimers_mono {js : Engine} (s : Sys) (e : Event) (he : isTimeout e = false) :
    s.resetTimers ≤ (step js s e).resetTimers := by
  cases e with
  | dragOver => exact le_refl _
  | dragLeave => exact le_refl _
  | drop files => exact le_refl _
  | fileSelect files => exact le_refl _
  | selectTarget value => exact le_refl _
  | timeout => simp [isTimeout] at he
  | click =>
    simp only [step, clickConvert, clickRendered]
    split
    · rw [handleConvertOf_resetTimers]
    · exact le_refl _
  | tick id u =>
    simp only [step, intervalTick]
    split
    · exact le_refl _
    · split <;> exact le_refl _
  | fetched id r =>
    simp only [step, fetchSettled]
    split
    · exact le_refl _
    · split
      · split <;> simp [failCall]
      · exact le_refl _
  | blobbed id r =>
    simp only [step, blobSettled]
    split
    · exact le_refl _
    · split
      · split <;> simp [failCall]
      · exact le_refl _

theorem run_resetTimers_mono {js : Engine} (es : List Event) :
    ∀ s : Sys, (∀ e ∈ es, isTimeout e = false) → s.resetTimers ≤ (run js s es).resetTimers := by
  induction es with
  | nil => intro s _; exact le_refl _
  | cons e es ih =>
    intro s hes
    exact le_trans (step_resetTimers_mono s e (hes e (List.mem_cons_self _ _)))
      (ih (step js s e) (fun x hx => hes x (List.mem_cons_of_mem _ hx)))

theorem step_fetched_ok {js : Engine} (s : Sys) (n : Nat) (c : Call) (hc : s.calls[n]? = some c)
    (hp : c.phase = Phase.awaitingFetch) :
    step js s (Event.fetched n (FetchResult.response true)) =
      { s with calls := s.calls.set n { c with intervalActive := false,
                                               phase := Phase.awaitingBlob } } := by
  simp [step, fetchSettled, hc, hp]

theorem step_fetched_failed {js : Engine} (s : Sys) (n : Nat) (c : Call) (r : FetchResult)
    (hc : s.calls[n]? = some c) (hp : c.phase = Phase.awaitingFetch)
    (hr : r ≠ FetchResult.response true) :
    ∃ c2 message, step js s (Event.fetched n r) = failCall s n c2 message := by
  cases r with
  | rejected m => exact ⟨c, m, by simp [step, fetchSettled, hc, hp]⟩
  | response ok =>
    cases ok with
    | true => exact absurd rfl hr
    | false =>
      exact ⟨{ c with intervalActive := false }, "Conversion failed",
        by simp [step, fetchSettled, hc, hp]⟩

theorem step_blobbed_ok {js : Engine} (s : Sys) (n : Nat) (c : Call) (hc : s.calls[n]? = some c)
    (hp : c.phase = Phase.awaitingBlob) :
    step js s (Event.blobbed n BlobResult.blob) =
      { s with
        calls := s.calls.set n { c with phase := Phase.done }
        downloads := s.downloads ++ [downloadName c.file c.toFormat]
        progressLog := s.progressLog ++ [100]
        ui := { s.ui with progress := 100, showSuccess := true, showError := false,
                          isConverting := false }
        resetTimers := s.resetTimers + 1 } := by
  simp [step, blobSettled, hc, hp]

theorem step_blobbed_resetTimers {js : Engine} (s : Sys) (n : Nat) (c : Call) (b : BlobResult)
    (hc : s.calls[n]? = some c) (hp : c.phase = Phase.awaitingBlob) :
    (step js s (Event.blobbed n b)).resetTimers = s.resetTimers + 1 := by
  cases b with
  | rejected m => simp [step, blobSettled, hc, hp, failCall]
  | blob => simp [step, blobSettled, hc, hp]

/-- However call `n` resolves, its `finally` block has scheduled a reset. -/
theorem run_settlement_resetTimers (js : Engine) (s : Sys) (n : Nat) (c : Call) (r : FetchResult)
    (between : List Event) (b : BlobResult) (hc : s.calls[n]? = some c)
    (hp : c.phase = Phase.awaitingFetch) (hb : ∀ e ∈ between, settles n e = false) :
    0 < (run js s (settlement n r between b)).resetTimers := by
  by_cases hr : r = FetchResult.response true
  · subst hr
    have hn := lt_of_getElem?_eq_some hc
    simp only [settlement, run_cons, run_append, run_nil]
    rw [step_fetched_ok s n c hc hp]
    obtain ⟨c2, h2, _, _, hp2⟩ := run_call_kept js n between
      { s with calls := s.calls.set n { c with intervalActive := false,
                                               phase := Phase.awaitingBlob } }
      { c with intervalActive := false, phase := Phase.awaitingBlob }
      (by simp [List.getElem?_set_self hn]) hb
    rw [step_blobbed_resetTimers _ n c2 b h2 (by rw [hp2])]
    exact Nat.succ_pos _
  · obtain ⟨c2, m, h⟩ := step_fetched_failed s n c r hc hp hr
    have hs : settlement n r between b = [Event.fetched n r] := by
      cases r with
      | rejected m => rfl
      | response ok =>
        cases ok with
        | true => exact absurd rfl hr
        | false => rfl
    rw [hs, run_cons, run_nil, h]
    simp [failCall]

/-- An expiring reset timeout runs `resetForm`. -/
theorem timeoutFire_ui {js : Engine} (s : Sys) (h : 0 < s.resetTimers) :
    (step js s Event.timeout).ui = resetForm s.ui := by
  have h0 : s.resetTimers ≠ 0 := Nat.pos_iff_ne_zero.mp h
  simp [step, timeoutFire, h0]

/-- The state in which a submission that passed the guards, however it resolved, is
followed by events without a timeout and then by the expiry of a timeout. -/
theorem run_resolved_timeout (js : Engine) (s : Sys) (file : File)
    (hf : s.ui.selectedFile = some file)
    (ht : s.ui.toFormat ≠ "") (hne : s.ui.fromFormat ≠ s.ui.toFormat)
    (before between after : List Event) (r : FetchResult) (b : BlobResult)
    (h1 : ∀ e ∈ before, settles s.calls.length e = false)
    (h2 : ∀ e ∈ between, settles s.calls.length e = false)
    (h3 : ∀ e ∈ after, isTimeout e = false) :
    0 < (run js (handleConvert s)
          (before ++ settlement s.calls.length r between b ++ after)).resetTimers := by
  have hstart := handleConvert_started s file hf ht hne
  have hc0 : (handleConvert s).calls[s.calls.length]? = some (newCall file s.ui.toFormat) := by
    rw [hstart]; exact List.getElem?_concat_length _ _
  obtain ⟨c1, hc1, _, _, hp1⟩ := run_call_kept js s.calls.length before _ _ hc0 h1
  have hres := run_settlement_resetTimers js (run js (handleConvert s) before) s.calls.length c1 r
    between b hc1 (by rw [hp1]; rfl) h2
  rw [run_append, run_append]
  exact lt_of_lt_of_le hres (run_resetTimers_mono after _ h3)

/-! ## Lemmas on the progress interval -/

theorem published_inactive (c : Call) (us : List ℚ) (h : c.intervalActive = false) :
    published c us = [] := by
  induction us with
  | nil => rfl
  | cons u us ih => simp [published, h, ih]

theorem published_le (us : List ℚ) : ∀ (c : Call), ∀ v ∈ published c us, v ≤ 90 := by
  induction us with
  | nil => intro c v hv; simp [published] at hv
  | cons u us ih =>
    intro c v hv
    by_cases ha : c.intervalActive = true
    · simp only [published, ha, if_true, List.mem_cons] at hv
      rcases hv with hv | hv
      · rw [hv]; exact min_le_right _ _
      · exact ih _ v hv
    · simp only [published, ha] at hv
      exact ih c v hv

theorem published_dropLast_lt (us : List ℚ) :
    ∀ (c : Call), ∀ v ∈ (published c us).dropLast, v < 90 := by
  induction us with
  | nil => intro c v hv; simp [published] at hv
  | cons u us ih =>
    intro c v hv
    by_cases ha : c.intervalActive = true
    · simp only [published, ha, if_true] at hv
      by_cases hge : c.fakeProgress + u * 10 ≥ 90
      · have hin : (intervalCallback c u).1.intervalActive = false := by
          simp [intervalCallback, hge]
        rw [published_inactive _ us hin] at hv
        simp at hv
      · cases hrest : published (intervalCallback c u).1 us with
        | nil => rw [hrest] at hv; simp at hv
        | cons w ws =>
          rw [hrest, List.dropLast_cons₂, List.mem_cons] at hv
          rcases hv with hv | hv
          · rw [hv]
            have hlt : c.fakeProgress + u * 10 < 90 := lt_of_not_ge hge
            simpa [intervalCallback] using hlt
          · exact ih _ v (by rw [hrest]; exact hv)
    · simp only [published, ha] at hv
      exact ih c v hv

theorem published_sorted (us : List ℚ) :
    ∀ (c : Call), 0 ≤ c.fakeProgress → (∀ u ∈ us, 0 ≤ u) →
      List.Pairwise (fun a b => a ≤ b) (published c us) ∧
      ∀ v ∈ published c us, min c.fakeProgress 90 ≤ v := by
  induction us with
  | nil => intro c _ _; simp [published]
  | cons u us ih =>
    intro c hc hus
    have hu : 0 ≤ u := hus u (List.mem_cons_self _ _)
    have hrest : ∀ x ∈ us, 0 ≤ x := fun x hx => hus x (List.mem_cons_of_mem _ hx)
    by_cases ha : c.intervalActive = true
    · have hstep : c.fakeProgress ≤ c.fakeProgress + u * 10 := by linarith
      have hc1 : 0 ≤ (intervalCallback c u).1.fakeProgress := le_trans hc hstep
      obtain ⟨hp, hb⟩ := ih (intervalCallback c u).1 hc1 hrest
      have hmono : min c.fakeProgress 90 ≤ min (c.fakeProgress + u * 10) 90 :=
        min_le_min hstep (le_refl _)
      simp only [published, ha, if_true]
      refine ⟨List.Pairwise.cons ?_ hp, ?_⟩
      · intro v hv
        exact hb v hv
      · intro v hv
        rcases List.mem_cons.mp hv with hv | hv
        · rw [hv]; exact hmono
        · exact le_trans hmono (hb v hv)
    · simp only [published, ha]
      exact ih c hc hrest

theorem afterTicks_inactive (c : Call) (us : List ℚ) (h : c.intervalActive = false) :
    afterTicks c us = c := by
  induction us with
  | nil => rfl
  | cons u us ih => simp [afterTicks, h, ih]

/-- The value of the tick number `i` is `Math.min(fakeProgress, 90)` for the sum of the
increments drawn up to that tick. -/
theorem published_getElem (us : List ℚ) :
    ∀ (c : Call) (i : Nat) (v : ℚ), c.intervalActive = true → (published c us)[i]? = some v →
      v = min (c.fakeProgress + ((us.take (i + 1)).map (fun u => u * 10)).sum) 90 := by
  induction us with
  | nil => intro c i v _ hv; simp [published] at hv
  | cons u us ih =>
    intro c i v ha hv
    simp only [published, ha, if_true] at hv
    cases i with
    | zero =>
      simp only [List.getElem?_cons_zero, Option.some.injEq] at hv
      rw [← hv]
      simp [intervalCallback]
    | succ k =>
      simp only [List.getElem?_cons_succ] at hv
      by_cases ha1 : (intervalCallback c u).1.intervalActive = true
      · have := ih (intervalCallback c u).1 k v ha1 hv
        rw [this]
        simp [intervalCallback, List.take_succ_cons, add_assoc]
      · have hin : (intervalCallback c u).1.intervalActive = false := by
          simpa using ha1
        rw [published_inactive _ us hin] at hv
        simp at hv

/-- As long as 90 has not been published, every tick publishes. -/
theorem published_length (us : List ℚ) :
    ∀ (c : Call), c.intervalActive = true → (90 : ℚ) ∉ published c us →
      (published c us).length = us.length := by
  induction us with
  | nil => intro c _ _; rfl
  | cons u us ih =>
    intro c ha hnot
    simp only [published, ha, if_true, List.mem_cons, not_or] at hnot
    obtain ⟨hp, hrest⟩ := hnot
    have hlt : ¬ c.fakeProgress + u * 10 ≥ 90 := by
      intro hge
      apply hp
      simp [intervalCallback, min_eq_right hge]
    have ha1 : (intervalCallback c u).1.intervalActive = true := by
      simp [intervalCallback, hlt, ha]
    simp only [published, ha, if_true, List.length_cons]
    rw [ih _ ha1 hrest]

/-- The interval is cleared exactly when 90 has been published. -/
theorem afterTicks_cleared_iff (us : List ℚ) :
    ∀ (c : Call), c.intervalActive = true →
      ((afterTicks c us).intervalActive = false ↔ (90 : ℚ) ∈ published c us) := by
  induction us with
  | nil => intro c ha; simp [afterTicks, published, ha]
  | cons u us ih =>
    intro c ha
    simp only [afterTicks, published, ha, if_true, List.mem_cons]
    by_cases hge : c.fakeProgress + u * 10 ≥ 90
    · have hin : (intervalCallback c u).1.intervalActive = false := by
        simp [intervalCallback, hge]
      rw [afterTicks_inactive _ us hin]
      constructor
      · intro _
        left
        simp [intervalCallback, min_eq_right hge]
      · intro _
        exact hin
    · have ha1 : (intervalCallback c u).1.intervalActive = true := by
        simp [intervalCallback, hge, ha]
      have hp : (90 : ℚ) ≠ (intervalCallback c u).2 := by
        have hlt : c.fakeProgress + u * 10 < 90 := lt_of_not_ge hge
        simp only [intervalCallback, min_eq_left (le_of_lt hlt)]
        exact ne_of_gt hlt
      rw [ih _ ha1]
      constructor
      · intro h; exact Or.inr h
      · intro h
        rcases h with h | h
        · exact absurd h hp
        · exact h

theorem afterTicks_kept (us : List ℚ) :
    ∀ c : Call, (afterTicks c us).file = c.file ∧ (afterTicks c us).toFormat = c.toFormat ∧
      (afterTicks c us).phase = c.phase := by
  induction us with
  | nil => intro c; exact ⟨rfl, rfl, rfl⟩
  | cons u us ih =>
    intro c
    by_cases ha : c.intervalActive = true
    · simp only [afterTicks, ha, if_true]
      exact ih _
    · simp only [afterTicks, ha]
      exact ih c

/-- The ticks of the interval of call `n`: what they publish, the call and the hooks
afterwards. -/
theorem run_ticks {js : Engine} (n : Nat) (us : List ℚ) :
    ∀ (s : Sys) (c : Call), s.calls[n]? = some c →
      (run js s (us.map (Event.tick n))).progressLog = s.progressLog ++ published c us ∧
      (run js s (us.map (Event.tick n))).calls[n]? = some (afterTicks c us) ∧
      (run js s (us.map (Event.tick n))).ui =
        { s.ui with progress := (published c us).getLastD s.ui.progress } := by
  induction us with
  | nil => intro s c hc; simp [run_nil, published, afterTicks, hc]
  | cons u us ih =>
    intro s c hc
    have hn := lt_of_getElem?_eq_some hc
    rw [List.map_cons, run_cons]
    by_cases ha : c.intervalActive = true
    · have hstep : step js s (Event.tick n u) =
          { s with
            calls := s.calls.set n (intervalCallback c u).1
            ui := { s.ui with progress := (intervalCallback c u).2 }
            progressLog := s.progressLog ++ [(intervalCallback c u).2] } := by
        simp [step, intervalTick, hc, ha]
      obtain ⟨h1, h2, h3⟩ := ih (step js s (Event.tick n u)) (intervalCallback c u).1
        (by rw [hstep]; simp [List.getElem?_set_self hn])
      refine ⟨?_, ?_, ?_⟩
      · rw [h1, hstep]; simp [published, ha]
      · rw [h2]; simp [afterTicks, ha]
      · rw [h3, hstep]
        simp only [published, ha, if_true]
        cases published (intervalCallback c u).1 us <;> rfl
    · have hstep : step js s (Event.tick n u) = s := by
        simp [step, intervalTick, hc, ha]
      rw [hstep]
      obtain ⟨h1, h2, h3⟩ := ih s c hc
      refine ⟨?_, ?_, ?_⟩
      · rw [h1]; simp [published, ha]
      · rw [h2]; simp [afterTicks, ha]
      · rw [h3]; simp [published, ha]

/-- What `handleFile` does with a file whose extension is in the catalog. -/
theorem handleFile_of_mem {js : Engine} (s : State) (file : File)
    (h : js.toLowerCase (afterLastDot file.name) ∈ supportedFormats) :
    (handleFile js s file).selectedFile = some file ∧
    (handleFile js s file).fromFormat = js.toLowerCase (afterLastDot file.name) ∧
    (handleFile js s file).showError = false ∧
    (handleFile js s file).showSuccess = false := by
  have hx : ¬ ¬ js.toLowerCase (afterLastDot file.name) ∈ supportedFormats := not_not.mpr h
  simp only [handleFile, fileExtension_eq, if_neg hx, and_self]

/-! ## Intake (C1, C2) -/

/-- C1: for every file whose name's segment after the last `.`, lower-cased, is one of the
ten catalog entries, and for every prior state, `handleFile` sets `selectedFile` to that
file, sets `fromFormat` to exactly that lower-cased extension, and sets `showError` and
`showSuccess` to false. -/
theorem handleFile_accepts (js : Engine) (s : State) (file : File)
    (h : js.toLowerCase (afterLastDot file.name) ∈ supportedFormats) :
    (handleFile js s file).selectedFile = some file ∧
    (handleFile js s file).fromFormat = js.toLowerCase (afterLastDot file.name) ∧
    (handleFile js s file).showError = false ∧
    (handleFile js s file).showSuccess = false :=
  handleFile_of_mem s file h

/-- C1 from a state that shows an earlier error: `movie.mkv` gives `mkv`, `movie.MKV` gives
`mkv`, and so does `clip.M\u212AV`, whose extension has the Kelvin sign U+212A for its
second letter. -/
theorem handleFile_accepts_witness :
    (handleFile latinEngine { State.init with showError := true, showSuccess := true }
        ⟨"movie.mkv", 1024⟩).fromFormat = "mkv" ∧
    ((handleFile latinEngine { State.init with showError := true, showSuccess := true }
        ⟨"movie.MKV", 1024⟩).selectedFile = some ⟨"movie.MKV", 1024⟩ ∧
     (handleFile latinEngine { State.init with showError := true, showSuccess := true }
        ⟨"movie.MKV", 1024⟩).fromFormat = "mkv" ∧
     (handleFile latinEngine { State.init with showError := true, showSuccess := true }
        ⟨"movie.MKV", 1024⟩).showError = false ∧
     (handleFile latinEngine { State.init with showError := true, showSuccess := true }
        ⟨"movie.MKV", 1024⟩).showSuccess = false) ∧
    (handleFile latinEngine { State.init with showError := true, showSuccess := true }
        ⟨"clip.M\u212AV", 1024⟩).fromFormat = "mkv" :=
  ⟨(handleFile_accepts latinEngine { State.init with showError := true, showSuccess := true }
      ⟨"movie.mkv", 1024⟩ (by decide)).2.1,
   handleFile_accepts latinEngine { State.init with showError := true, showSuccess := true }
      ⟨"movie.MKV", 1024⟩ (by decide),
   (handleFile_accepts latinEngine { State.init with showError := true, showSuccess := true }
      ⟨"clip.M\u212AV", 1024⟩ (by decide)).2.1⟩

/-- C2: for every file whose lower-cased extension is not in the catalog, and for every
prior state, `handleFile` fails with the unsupported-format error (`showError` becomes true,
the message carries the extension) and leaves `selectedFile`, `fromFormat`, `toFormat`,
`progress` and `isConverting` unchanged. -/
theorem handleFile_rejects (js : Engine) (s : State) (file : File)
    (h : js.toLowerCase (afterLastDot file.name) ∉ supportedFormats) :
    (handleFile js s file).showError = true ∧
    (handleFile js s file).errorMessage =
      unsupportedMessage js (js.toLowerCase (afterLastDot file.name)) ∧
    (handleFile js s file).selectedFile = s.selectedFile ∧
    (handleFile js s file).fromFormat = s.fromFormat ∧
    (handleFile js s file).toFormat = s.toFormat ∧
    (handleFile js s file).progress = s.progress ∧
    (handleFile js s file).isConverting = s.isConverting := by
  simp only [handleFile, fileExtension_eq, if_pos h, and_self]

/-- C2 at `song.xyz`: from the state in which `movie.mkv` is accepted and `mp4` chosen the
request is left as it is, and from the initial state the controller still has no file; at
`notes.straße` the message carries the upper-cased extension `STRASSE`. -/
theorem handleFile_rejects_witness :
    ((handleFile latinEngine
        { State.init with
          selectedFile := some ⟨"movie.mkv", 1024⟩, fromFormat := "mkv", toFormat := "mp4" }
        ⟨"song.xyz", 7⟩).showError = true ∧
     (handleFile latinEngine
        { State.init with
          selectedFile := some ⟨"movie.mkv", 1024⟩, fromFormat := "mkv", toFormat := "mp4" }
        ⟨"song.xyz", 7⟩).errorMessage =
        "Unsupported file format: .XYZ. Please select a supported video file." ∧
     (handleFile latinEngine
        { State.init with
          selectedFile := some ⟨"movie.mkv", 1024⟩, fromFormat := "mkv", toFormat := "mp4" }
        ⟨"song.xyz", 7⟩).selectedFile = some ⟨"movie.mkv", 1024⟩ ∧
     (handleFile latinEngine
        { State.init with
          selectedFile := some ⟨"movie.mkv", 1024⟩, fromFormat := "mkv", toFormat := "mp4" }
        ⟨"song.xyz", 7⟩).fromFormat = "mkv" ∧
     (handleFile latinEngine
        { State.init with
          selectedFile := some ⟨"movie.mkv", 1024⟩, fromFormat := "mkv", toFormat := "mp4" }
        ⟨"song.xyz", 7⟩).toFormat = "mp4" ∧
     (handleFile latinEngine
        { State.init with
          selectedFile := some ⟨"movie.mkv", 1024⟩, fromFormat := "mkv", toFormat := "mp4" }
        ⟨"song.xyz", 7⟩).progress = 0 ∧
     (handleFile latinEngine
        { State.init with
          selectedFile := some ⟨"movie.mkv", 1024⟩, fromFormat := "mkv", toFormat := "mp4" }
        ⟨"song.xyz", 7⟩).isConverting = false) ∧
    (handleFile latinEngine State.init ⟨"song.xyz", 7⟩).selectedFile = none ∧
    (handleFile latinEngine State.init ⟨"notes.straße", 7⟩).errorMessage =
      "Unsupported file format: .STRASSE. Please select a supported video file." :=
  ⟨handleFile_rejects latinEngine
      { State.init with
          selectedFile := some ⟨"movie.mkv", 1024⟩, fromFormat := "mkv", toFormat := "mp4" }
      ⟨"song.xyz", 7⟩ (by decide),
   (handleFile_rejects latinEngine State.init ⟨"song.xyz", 7⟩ (by decide)).2.2.1,
   (handleFile_rejects latinEngine State.init ⟨"notes.straße", 7⟩ (by decide)).2.1⟩

/-! ## Submission guards (C3, C10) -/

/-- C3: in every state in which no file is present, or no target format is chosen, or
`fromFormat` equals `toFormat`, `handleConvert` is rejected: no request is issued and no
interval is created (`calls` unchanged), no timeout is scheduled, nothing is published or
delivered, and of the hooks only `showError` and `errorMessage` change, so `isConverting`,
`selectedFile`, `fromFormat`, `toFormat` and `progress` keep their values. -/
theorem handleConvert_rejected (s : Sys)
    (h : s.ui.selectedFile = none ∨ s.ui.toFormat = "" ∨ s.ui.fromFormat = s.ui.toFormat) :
    (handleConvert s).calls = s.calls ∧
    (handleConvert s).resetTimers = s.resetTimers ∧
    (handleConvert s).progressLog = s.progressLog ∧
    (handleConvert s).downloads = s.downloads ∧
    (handleConvert s).ui.showError = true ∧
    (handleConvert s).ui =
      { s.ui with showError := true, errorMessage := (handleConvert s).ui.errorMessage } := by
  unfold handleConvert handleConvertOf
  cases hf : s.ui.selectedFile with
  | none => simp
  | some file =>
    by_cases ht : s.ui.toFormat = ""
    · simp [ht]
    · by_cases he : s.ui.fromFormat = s.ui.toFormat
      · simp [ht, he]
      · rcases h with h | h | h
        · rw [hf] at h; cases h
        · exact absurd h ht
        · exact absurd h he

/-- C3 after intake of `clip.mkv` and target `mkv`: the file stays accepted, nothing starts. -/
theorem handleConvert_rejected_witness :
    (run latinEngine Sys.init [Event.fileSelect [⟨"clip.mkv", 9⟩], Event.selectTarget "mkv"]).ui.selectedFile
      = some ⟨"clip.mkv", 9⟩ ∧
    (handleConvert
      (run latinEngine Sys.init [Event.fileSelect [⟨"clip.mkv", 9⟩], Event.selectTarget "mkv"])).calls = [] ∧
    (handleConvert
      (run latinEngine Sys.init [Event.fileSelect [⟨"clip.mkv", 9⟩], Event.selectTarget "mkv"])).ui.isConverting
      = false :=
  have h := handleConvert_rejected
    (run latinEngine Sys.init [Event.fileSelect [⟨"clip.mkv", 9⟩], Event.selectTarget "mkv"])
    (Or.inr (Or.inr (by decide)))
  ⟨by decide, h.1, by rw [h.2.2.2.2.2]; decide⟩

/-- C10 as stated fails: a state without a file (and with a target) and a state with a file
and without a target are `MissingFile` and `MissingTarget` in the spec's taxonomy, and
`handleConvert` surfaces the same flag and the same message in both. -/
theorem handleConvert_missing_indistinguishable :
    submissionError { State.init with toFormat := "mp4" } = some SubmissionError.MissingFile ∧
    submissionError { State.init with selectedFile := some ⟨"movie.mkv", 1⟩, fromFormat := "mkv" }
      = some SubmissionError.MissingTarget ∧
    (handleConvert { Sys.init with ui := { State.init with toFormat := "mp4" } }).ui.errorMessage =
      (handleConvert { Sys.init with ui :=
        { State.init with selectedFile := some ⟨"movie.mkv", 1⟩,
                          fromFormat := "mkv" } }).ui.errorMessage ∧
    (handleConvert { Sys.init with ui := { State.init with toFormat := "mp4" } }).ui.showError =
      (handleConvert { Sys.init with ui :=
        { State.init with selectedFile := some ⟨"movie.mkv", 1⟩,
                          fromFormat := "mkv" } }).ui.showError := by
  decide

/-- C10, amended: `handleConvert` checks its guards in order and the first failure wins;
when no file is present or no target is chosen it surfaces one combined error
(`missingMessage`), otherwise when `fromFormat` equals `toFormat` it surfaces
`identicalMessage`, a different message. -/
theorem handleConvert_error_order (s : Sys) (e : SubmissionError)
    (h : submissionError s.ui = some e) :
    (handleConvert s).ui.showError = true ∧
    (handleConvert s).ui.errorMessage =
      (if e = SubmissionError.IdenticalFormats then identicalMessage else missingMessage) ∧
    missingMessage ≠ identicalMessage := by
  refine ⟨?_, ?_, by decide⟩
  · unfold handleConvert handleConvertOf
    cases hf : s.ui.selectedFile with
    | none => simp
    | some file =>
      by_cases ht : s.ui.toFormat = ""
      · simp [ht]
      · by_cases he : s.ui.fromFormat = s.ui.toFormat
        · simp [ht, he]
        · simp [submissionError, hf, ht, he] at h
  · unfold handleConvert handleConvertOf
    cases hf : s.ui.selectedFile with
    | none =>
      simp [submissionError, hf] at h
      subst h
      simp
    | some file =>
      by_cases ht : s.ui.toFormat = ""
      · simp [submissionError, hf, ht] at h
        subst h
        simp [ht]
      · by_cases he : s.ui.fromFormat = s.ui.toFormat
        · simp [submissionError, hf, ht, he] at h
          subst h
          simp [ht, he]
        · simp [submissionError, hf, ht, he] at h

/-- C10 amended, after intake of `clip.mkv` and target `mkv`: the identical-formats message. -/
theorem handleConvert_error_order_witness :
    (handleConvert
      (run latinEngine Sys.init [Event.fileSelect [⟨"clip.mkv", 9⟩], Event.selectTarget "mkv"])).ui.showError
      = true ∧
    (handleConvert
      (run latinEngine Sys.init [Event.fileSelect [⟨"clip.mkv", 9⟩], Event.selectTarget "mkv"])).ui.errorMessage
      = (if SubmissionError.IdenticalFormats = SubmissionError.IdenticalFormats
          then identicalMessage else missingMessage) ∧
    missingMessage ≠ identicalMessage :=
  handleConvert_error_order
    (run latinEngine Sys.init [Event.fileSelect [⟨"clip.mkv", 9⟩], Event.selectTarget "mkv"])
    SubmissionError.IdenticalFormats (by decide)

/-! ## Progress estimation (C4, C5) -/

/-- C4 as stated fails: `movie.mkv` is accepted, `mp4` chosen, the button clicked, and ten
ticks draw `Math.random() = 15/16` (increments of 9.375, each in `[0,10)`) while the
`fetch` is still outstanding; the tenth tick has `fakeProgress = 93.75` and passes
`Math.min(93.75, 90) = 90` to `setProgress`, which is not strictly less than 90. -/
theorem published_reaches_90 :
    (∀ u ∈ List.replicate 10 (15 / 16 : ℚ), 0 ≤ u * 10 ∧ u * 10 < 10) ∧
    (run latinEngine Sys.init ([Event.fileSelect [⟨"movie.mkv", 1⟩], Event.selectTarget "mp4",
        Event.click] ++ (List.replicate 10 (15 / 16 : ℚ)).map (Event.tick 0))).progressLog
      = [0, 75 / 8, 75 / 4, 225 / 8, 75 / 2, 375 / 8, 225 / 4, 525 / 8, 75, 675 / 8, 90] ∧
    (run latinEngine Sys.init ([Event.fileSelect [⟨"movie.mkv", 1⟩], Event.selectTarget "mp4",
        Event.click] ++ (List.replicate 10 (15 / 16 : ℚ)).map (Event.tick 0))).ui.progress
      = 90 ∧
    (run latinEngine Sys.init ([Event.fileSelect [⟨"movie.mkv", 1⟩], Event.selectTarget "mp4",
        Event.click] ++ (List.replicate 10 (15 / 16 : ℚ)).map (Event.tick 0))).ui.isConverting
      = true := by
  have hs0 : run latinEngine Sys.init [Event.fileSelect [⟨"movie.mkv", 1⟩], Event.selectTarget "mp4",
      Event.click] =
      { ui := { State.init with selectedFile := some ⟨"movie.mkv", 1⟩, fromFormat := "mkv",
                                toFormat := "mp4", isConverting := true }
        calls := [newCall ⟨"movie.mkv", 1⟩ "mp4"], downloads := [], progressLog := [0],
        resetTimers := 0 } := by
    decide
  have hpub : published (newCall ⟨"movie.mkv", 1⟩ "mp4") (List.replicate 10 (15 / 16 : ℚ)) =
      [75 / 8, 75 / 4, 225 / 8, 75 / 2, 375 / 8, 225 / 4, 525 / 8, 75, 675 / 8, 90] := by
    norm_num [published, intervalCallback, newCall, List.replicate]
  obtain ⟨h1, _, h3⟩ := run_ticks 0 (List.replicate 10 (15 / 16 : ℚ))
    (run latinEngine Sys.init [Event.fileSelect [⟨"movie.mkv", 1⟩], Event.selectTarget "mp4",
      Event.click]) (newCall ⟨"movie.mkv", 1⟩ "mp4") (by rw [hs0]; rfl)
  refine ⟨?_, ?_, ?_, ?_⟩
  · intro u hu
    rw [List.eq_of_mem_replicate hu]
    norm_num
  · rw [run_append, h1, hpub, hs0]; rfl
  · rw [run_append, h3, hpub]; rfl
  · rw [run_append, h3, hs0]

/-- C4, amended: while the remote call is outstanding, for every number of ticks and every
sequence of `Math.random()` values, the value that the tick number `i` passes to
`setProgress` is `Math.min(fakeProgress, 90)`, where `fakeProgress` is the sum of the
increments drawn up to that tick, hence at most 90.  The tick on which `fakeProgress`
reaches 90 publishes exactly 90 and clears the interval: the interval is cleared exactly
when 90 has been published, 90 can only be the last published value, every earlier value
is strictly less than 90, and as long as 90 has not been published every tick publishes. -/
theorem published_at_most_90 (js : Engine) (s : Sys) (file : File)
    (hf : s.ui.selectedFile = some file)
    (ht : s.ui.toFormat ≠ "") (hne : s.ui.fromFormat ≠ s.ui.toFormat) (us : List ℚ) :
    ∃ vals : List ℚ,
      (run js (handleConvert s) (us.map (Event.tick s.calls.length))).progressLog =
        s.progressLog ++ 0 :: vals ∧
      (∀ v ∈ vals, v ≤ 90) ∧ (∀ v ∈ vals.dropLast, v < 90) ∧
      (∀ (i : Nat) (v : ℚ), vals[i]? = some v →
        v = min (((us.take (i + 1)).map (fun u => u * 10)).sum) 90) ∧
      ((90 : ℚ) ∉ vals → vals.length = us.length) ∧
      ∃ c : Call,
        (run js (handleConvert s) (us.map (Event.tick s.calls.length))).calls[s.calls.length]?
          = some c ∧
        c.phase = Phase.awaitingFetch ∧
        (c.intervalActive = false ↔ (90 : ℚ) ∈ vals) := by
  have hstart := handleConvert_started s file hf ht hne
  have hc0 : (handleConvert s).calls[s.calls.length]? = some (newCall file s.ui.toFormat) := by
    rw [hstart]; exact List.getElem?_concat_length _ _
  obtain ⟨h1, h2, _⟩ := run_ticks s.calls.length us (handleConvert s) _ hc0
  refine ⟨published (newCall file s.ui.toFormat) us, ?_, published_le us _,
    published_dropLast_lt us _, ?_, published_length us _ rfl, ?_⟩
  · rw [h1, hstart]
    simp
  · intro i v hv
    have := published_getElem us (newCall file s.ui.toFormat) i v rfl hv
    simpa [newCall] using this
  · exact ⟨afterTicks (newCall file s.ui.toFormat) us, h2, (afterTicks_kept us _).2.2,
      afterTicks_cleared_iff us _ rfl⟩

/-- C4 amended, for `movie.mkv` to `mp4` and two ticks. -/
theorem published_at_most_90_witness :
    ∃ vals : List ℚ,
      (run latinEngine (handleConvert 
            (run latinEngine Sys.init [Event.fileSelect [⟨"movie.mkv", 1⟩], Event.selectTarget "mp4"]))
          [Event.tick 0 (1 / 2), Event.tick 0 (3 / 4)]).progressLog = [] ++ 0 :: vals ∧
      (∀ v ∈ vals, v ≤ 90) ∧ (∀ v ∈ vals.dropLast, v < 90) ∧
      (∀ (i : Nat) (v : ℚ), vals[i]? = some v →
        v = min ((([1 / 2, 3 / 4] : List ℚ).take (i + 1)).map (fun u => u * 10)).sum 90) ∧
      ((90 : ℚ) ∉ vals → vals.length = 2) ∧
      ∃ c : Call,
        (run latinEngine (handleConvert 
            (run latinEngine Sys.init [Event.fileSelect [⟨"movie.mkv", 1⟩], Event.selectTarget "mp4"]))
          [Event.tick 0 (1 / 2), Event.tick 0 (3 / 4)]).calls[0]? = some c ∧
        c.phase = Phase.awaitingFetch ∧
        (c.intervalActive = false ↔ (90 : ℚ) ∈ vals) :=
  published_at_most_90 latinEngine 
            (run latinEngine Sys.init [Event.fileSelect [⟨"movie.mkv", 1⟩], Event.selectTarget "mp4"])
    ⟨"movie.mkv", 1⟩ (by decide) (by decide) (by decide) [1 / 2, 3 / 4]

/-- C5: within one submission the values passed to `setProgress` (0 when the conversion
starts, one value per tick of the interval for any `Math.random()` values in `[0,1)`, then
100 on success) form a non-decreasing sequence, and each lies in `[0,100]`. -/
theorem progress_sequence_monotone (js : Engine) (s : Sys) (file : File)
    (hf : s.ui.selectedFile = some file)
    (ht : s.ui.toFormat ≠ "") (hne : s.ui.fromFormat ≠ s.ui.toFormat) (us : List ℚ)
    (hus : ∀ u ∈ us, 0 ≤ u ∧ u < 1) :
    ∃ vals : List ℚ,
      (run js (handleConvert s) (us.map (Event.tick s.calls.length) ++
        [Event.fetched s.calls.length (FetchResult.response true),
         Event.blobbed s.calls.length BlobResult.blob])).progressLog = s.progressLog ++ vals ∧
      vals.head? = some 0 ∧ vals.getLast? = some 100 ∧
      List.Pairwise (fun a b => a ≤ b) vals ∧ (∀ v ∈ vals, 0 ≤ v ∧ v ≤ 100) := by
  have hstart := handleConvert_started s file hf ht hne
  have hc0 : (handleConvert s).calls[s.calls.length]? = some (newCall file s.ui.toFormat) := by
    rw [hstart]; exact List.getElem?_concat_length _ _
  obtain ⟨h1, h2, _⟩ := run_ticks s.calls.length us (handleConvert s) _ hc0
  have hn := lt_of_getElem?_eq_some h2
  have hph : (afterTicks (newCall file s.ui.toFormat) us).phase = Phase.awaitingFetch :=
    (afterTicks_kept us _).2.2
  obtain ⟨hsorted, hlow⟩ := published_sorted us (newCall file s.ui.toFormat) (le_refl _)
    (fun u hu => (hus u hu).1)
  have hhigh := published_le us (newCall file s.ui.toFormat)
  have hlog : (run js (handleConvert s) (us.map (Event.tick s.calls.length) ++
        [Event.fetched s.calls.length (FetchResult.response true),
         Event.blobbed s.calls.length BlobResult.blob])).progressLog =
      s.progressLog ++ (0 :: published (newCall file s.ui.toFormat) us ++ [100]) := by
    rw [run_append, run_cons, run_cons, run_nil, step_fetched_ok _ _ _ h2 hph,
      step_blobbed_ok _ s.calls.length
        { afterTicks (newCall file s.ui.toFormat) us with
          intervalActive := false, phase := Phase.awaitingBlob }
        (by simp [List.getElem?_set_self hn]) rfl]
    show (run js (handleConvert s) (us.map (Event.tick s.calls.length))).progressLog ++ [100] = _
    rw [h1, hstart]
    simp
  have hlow0 : ∀ v ∈ published (newCall file s.ui.toFormat) us, (0 : ℚ) ≤ v := by
    intro v hv
    have := hlow v hv
    simpa [newCall] using this
  refine ⟨0 :: published (newCall file s.ui.toFormat) us ++ [100], hlog, rfl, ?_, ?_, ?_⟩
  · rw [List.getLast?_concat]
  · rw [List.pairwise_append]
    refine ⟨List.Pairwise.cons hlow0 hsorted, List.pairwise_singleton _ _, ?_⟩
    intro a ha b hb
    rw [List.mem_singleton] at hb
    rw [hb]
    rcases List.mem_cons.mp ha with ha | ha
    · rw [ha]; norm_num
    · exact le_trans (hhigh a ha) (by norm_num)
  · intro v hv
    rw [List.mem_append, List.mem_cons, List.mem_singleton] at hv
    rcases hv with (hv | hv) | hv
    · rw [hv]; norm_num
    · exact ⟨hlow0 v hv, le_trans (hhigh v hv) (by norm_num)⟩
    · rw [hv]; norm_num

/-- C5 for `movie.mkv` to `mp4` and two ticks. -/
theorem progress_sequence_monotone_witness :
    ∃ vals : List ℚ,
      (run latinEngine (handleConvert
            (run latinEngine Sys.init [Event.fileSelect [⟨"movie.mkv", 1⟩], Event.selectTarget "mp4"]))
          [Event.tick 0 (1 / 2), Event.tick 0 (3 / 4),
           Event.fetched 0 (FetchResult.response true),
           Event.blobbed 0 BlobResult.blob]).progressLog = [] ++ vals ∧
      vals.head? = some 0 ∧ vals.getLast? = some 100 ∧
      List.Pairwise (fun a b => a ≤ b) vals ∧ (∀ v ∈ vals, 0 ≤ v ∧ v ≤ 100) :=
  progress_sequence_monotone latinEngine
    (run latinEngine Sys.init [Event.fileSelect [⟨"movie.mkv", 1⟩], Event.selectTarget "mp4"])
    ⟨"movie.mkv", 1⟩ (by decide) (by decide) (by decide) [1 / 2, 3 / 4]
    (by
      intro u hu
      simp only [List.mem_cons, List.mem_singleton, List.not_mem_nil, or_false] at hu
      rcases hu with hu | hu <;> rw [hu] <;> norm_num)

/-! ## Delivery (C6) -/

/-- C6: for every accepted source file and every chosen target format, the name under
which the converted payload is delivered is the portion of the source name before its
first `.`, followed by `.` and the target format, both as they were when the submission
started; events that do not resume this call may come in between. -/
theorem delivered_name (js : Engine) (s : Sys) (file : File) (hf : s.ui.selectedFile = some file)
    (ht : s.ui.toFormat ≠ "") (hne : s.ui.fromFormat ≠ s.ui.toFormat)
    (before between : List Event)
    (h1 : ∀ e ∈ before, settles s.calls.length e = false)
    (h2 : ∀ e ∈ between, settles s.calls.length e = false) :
    (run js (handleConvert s)
        (before ++ [Event.fetched s.calls.length (FetchResult.response true)] ++ between ++
          [Event.blobbed s.calls.length BlobResult.blob])).downloads.getLast? =
      some (beforeFirstDot file.name ++ "." ++ s.ui.toFormat) := by
  have hstart := handleConvert_started s file hf ht hne
  have hc0 : (handleConvert s).calls[s.calls.length]? = some (newCall file s.ui.toFormat) := by
    rw [hstart]; exact List.getElem?_concat_length _ _
  obtain ⟨c1, hc1, hf1, ht1, hp1⟩ := run_call_kept js s.calls.length before _ _ hc0 h1
  have hn := lt_of_getElem?_eq_some hc1
  have hp1 : c1.phase = Phase.awaitingFetch := by rw [hp1]; rfl
  obtain ⟨c2, hc2, hf2, ht2, hp2⟩ := run_call_kept js s.calls.length between
    (step js (run js (handleConvert s) before)
      (Event.fetched s.calls.length (FetchResult.response true)))
    { c1 with intervalActive := false, phase := Phase.awaitingBlob }
    (by rw [step_fetched_ok _ _ _ hc1 hp1]; simp [List.getElem?_set_self hn]) h2
  rw [run_append, run_append, run_append, run_cons, run_nil, run_cons, run_nil,
    step_blobbed_ok _ _ c2 hc2 (by rw [hp2])]
  simp only [List.getLast?_concat]
  have e1 : c2.file = file := by rw [hf2]; exact hf1
  have e2 : c2.toFormat = s.ui.toFormat := by rw [ht2]; exact ht1
  rw [e1, e2, downloadName, first_split_eq_beforeFirstDot]

/-- C6 for `movie.mkv` with target `mp4`: the payload is delivered as `movie.mp4`. -/
theorem delivered_name_witness :
    beforeFirstDot "movie.mkv" ++ "." ++ "mp4" = "movie.mp4" ∧
    (run latinEngine (handleConvert
          (run latinEngine Sys.init [Event.fileSelect [⟨"movie.mkv", 1⟩], Event.selectTarget "mp4"]))
        [Event.tick 0 (1 / 2), Event.fetched 0 (FetchResult.response true),
         Event.blobbed 0 BlobResult.blob]).downloads.getLast? =
      some (beforeFirstDot "movie.mkv" ++ "." ++ "mp4") :=
  ⟨by decide,
   delivered_name latinEngine
    (run latinEngine Sys.init [Event.fileSelect [⟨"movie.mkv", 1⟩], Event.selectTarget "mp4"])
    ⟨"movie.mkv", 1⟩ (by decide) (by decide) (by decide)
    [Event.tick 0 (1 / 2)] [] (by simp [settles]) (by simp)⟩

/-! ## Reentrant submission (C7) -/

/-- C7 as stated fails: `movie.mkv` is accepted and `mp4` chosen, and on the render of
these hooks the button is enabled.  A first click on that render starts the conversion
(`isConverting` is set, one request).  A second click handled on the same render, before
React commits the next one, calls `handleConvert` again: a second request and a second
interval, both outstanding.  So does `handleConvert` itself when it is invoked on the
committed converting state. -/
theorem second_submit_starts_again :
    (clickRendered
      (run latinEngine Sys.init
        [Event.fileSelect [⟨"movie.mkv", 1⟩], Event.selectTarget "mp4"]).ui
      (run latinEngine Sys.init
        [Event.fileSelect [⟨"movie.mkv", 1⟩], Event.selectTarget "mp4"])).ui.isConverting
      = true ∧
    (clickRendered
      (run latinEngine Sys.init
        [Event.fileSelect [⟨"movie.mkv", 1⟩], Event.selectTarget "mp4"]).ui
      (run latinEngine Sys.init
        [Event.fileSelect [⟨"movie.mkv", 1⟩], Event.selectTarget "mp4"])).calls.length = 1 ∧
    (clickRendered
      (run latinEngine Sys.init
        [Event.fileSelect [⟨"movie.mkv", 1⟩], Event.selectTarget "mp4"]).ui
      (clickRendered
        (run latinEngine Sys.init
          [Event.fileSelect [⟨"movie.mkv", 1⟩], Event.selectTarget "mp4"]).ui
        (run latinEngine Sys.init
          [Event.fileSelect [⟨"movie.mkv", 1⟩], Event.selectTarget "mp4"]))).calls.length
      = 2 ∧
    ((clickRendered
      (run latinEngine Sys.init
        [Event.fileSelect [⟨"movie.mkv", 1⟩], Event.selectTarget "mp4"]).ui
      (clickRendered
        (run latinEngine Sys.init
          [Event.fileSelect [⟨"movie.mkv", 1⟩], Event.selectTarget "mp4"]).ui
        (run latinEngine Sys.init
          [Event.fileSelect [⟨"movie.mkv", 1⟩], Event.selectTarget "mp4"]))).calls.map
        (fun c => (c.intervalActive, c.phase))) =
      [(true, Phase.awaitingFetch), (true, Phase.awaitingFetch)] ∧
    (handleConvert
      (clickRendered
        (run latinEngine Sys.init
          [Event.fileSelect [⟨"movie.mkv", 1⟩], Event.selectTarget "mp4"]).ui
        (run latinEngine Sys.init
          [Event.fileSelect [⟨"movie.mkv", 1⟩], Event.selectTarget "mp4"]))).calls.length
      = 2 := by
  decide

/-- C7, amended: `handleConvert` has no guard on `isConverting`; the guard is the `disabled`
attribute of the Convert button, its only caller, and it is fixed when a render is
committed.  A click on the button of a render in which `isConverting` is true changes
nothing: no second request and no second interval start.  Hence two clicks with the
commit of a render between them do what one click does and issue at most one request,
exactly one when the button was enabled at the first click. -/
theorem clickRendered_reentrant (js : Engine) (view : State) (s : Sys)
    (h : view.isConverting = true) :
    clickRendered view s = s ∧
    clickConvert (clickConvert s) = clickConvert s ∧
    (run js s [Event.click, Event.click]).calls.length ≤ s.calls.length + 1 ∧
    (s.ui.selectedFile.isSome = true → convertDisabled s.ui = false →
      (run js s [Event.click, Event.click]).calls.length = s.calls.length + 1) := by
  have hno : ∀ (v : State) (t : Sys), v.isConverting = true → clickRendered v t = t := by
    intro v t hv
    simp [clickRendered, convertDisabled, hv]
  have hguards : ∀ file, s.ui.selectedFile = some file → convertDisabled s.ui = false →
      clickConvert s =
        { s with
          ui := { s.ui with isConverting := true, progress := 0 }
          progressLog := s.progressLog ++ [0]
          calls := s.calls ++ [newCall file s.ui.toFormat] } := by
    intro file hf hcd
    have ht : s.ui.toFormat ≠ "" := by
      intro e
      simp [convertDisabled, canConvert, e] at hcd
    have hne : s.ui.fromFormat ≠ s.ui.toFormat := by
      intro e
      simp [convertDisabled, canConvert, e] at hcd
    have hc : (s.ui.selectedFile.isSome && !convertDisabled s.ui) = true := by
      simp [hf, hcd]
    simp only [clickConvert, clickRendered, if_pos hc]
    exact handleConvertOf_started s.ui s file hf ht hne
  have hidem : clickConvert (clickConvert s) = clickConvert s := by
    by_cases hc : (s.ui.selectedFile.isSome && !convertDisabled s.ui) = true
    · have hcd : convertDisabled s.ui = false := by
        cases hd : convertDisabled s.ui with
        | false => rfl
        | true => simp [hd] at hc
      cases hf : s.ui.selectedFile with
      | none => simp [hf] at hc
      | some file =>
        rw [hguards file hf hcd]
        exact hno _ _ rfl
    · have h1 : clickConvert s = s := by
        simp only [clickConvert, clickRendered, if_neg hc]
      rw [h1, h1]
  have hrun : run js s [Event.click, Event.click] = clickConvert s := by
    show step js (step js s Event.click) Event.click = _
    simp only [step]
    exact hidem
  refine ⟨hno view s h, hidem, ?_, ?_⟩
  · rw [hrun]
    simp only [clickConvert, clickRendered]
    split
    · rcases handleConvertOf_calls s.ui s with h1 | ⟨c, h1⟩
      · rw [h1]; exact Nat.le_succ _
      · rw [h1]; simp
    · exact Nat.le_succ _
  · intro hsome hcd
    rw [hrun]
    cases hf : s.ui.selectedFile with
    | none => simp [hf] at hsome
    | some file =>
      rw [hguards file hf hcd]
      simp

/-- C7 amended, at the converting state reached by accepting `movie.mkv`, choosing `mp4`
and clicking: on the committed render of that state a further click changes nothing. -/
theorem clickRendered_reentrant_witness :
    (run latinEngine Sys.init [Event.fileSelect [⟨"movie.mkv", 1⟩], Event.selectTarget "mp4",
        Event.click]).calls.length = 1 ∧
    clickRendered
      (run latinEngine Sys.init [Event.fileSelect [⟨"movie.mkv", 1⟩],
        Event.selectTarget "mp4", Event.click]).ui
      (run latinEngine Sys.init [Event.fileSelect [⟨"movie.mkv", 1⟩],
        Event.selectTarget "mp4", Event.click]) =
      run latinEngine Sys.init [Event.fileSelect [⟨"movie.mkv", 1⟩], Event.selectTarget "mp4",
        Event.click] :=
  ⟨by decide,
   (clickRendered_reentrant latinEngine
      (run latinEngine Sys.init [Event.fileSelect [⟨"movie.mkv", 1⟩],
        Event.selectTarget "mp4", Event.click]).ui
      (run latinEngine Sys.init [Event.fileSelect [⟨"movie.mkv", 1⟩],
        Event.selectTarget "mp4", Event.click]) (by decide)).1⟩

/-! ## Auto-reset (C8, C9) -/

/-- C8: after a submission that passed its guards resolves, in success or in failure (a
rejected `fetch`, a response that is not ok, a rejected `blob()`), the reset scheduled by
its `finally` block fires and the hooks are those of the initial state: `selectedFile` is
null, `fromFormat` and `toFormat` are empty, `isConverting` is false, `progress` is 0,
`showSuccess` and `showError` are false, `errorMessage` is empty.  Events that do not
resume this call may precede its resolution, and events other than a timeout may follow
it; with none of them, no other event intervenes. -/
theorem auto_reset_to_idle (js : Engine) (s : Sys) (file : File) (hf : s.ui.selectedFile = some file)
    (ht : s.ui.toFormat ≠ "") (hne : s.ui.fromFormat ≠ s.ui.toFormat)
    (before between after : List Event) (r : FetchResult) (b : BlobResult)
    (h1 : ∀ e ∈ before, settles s.calls.length e = false)
    (h2 : ∀ e ∈ between, settles s.calls.length e = false)
    (h3 : ∀ e ∈ after, isTimeout e = false) :
    (run js (handleConvert s) (before ++ settlement s.calls.length r between b ++ after ++
        [Event.timeout])).ui.selectedFile = none ∧
    (run js (handleConvert s) (before ++ settlement s.calls.length r between b ++ after ++
        [Event.timeout])).ui.fromFormat = "" ∧
    (run js (handleConvert s) (before ++ settlement s.calls.length r between b ++ after ++
        [Event.timeout])).ui.toFormat = "" ∧
    (run js (handleConvert s) (before ++ settlement s.calls.length r between b ++ after ++
        [Event.timeout])).ui.isConverting = false ∧
    (run js (handleConvert s) (before ++ settlement s.calls.length r between b ++ after ++
        [Event.timeout])).ui.progress = 0 ∧
    (run js (handleConvert s) (before ++ settlement s.calls.length r between b ++ after ++
        [Event.timeout])).ui.showSuccess = false ∧
    (run js (handleConvert s) (before ++ settlement s.calls.length r between b ++ after ++
        [Event.timeout])).ui.showError = false ∧
    (run js (handleConvert s) (before ++ settlement s.calls.length r between b ++ after ++
        [Event.timeout])).ui.errorMessage = "" := by
  have hpos := run_resolved_timeout js s file hf ht hne before between after r b h1 h2 h3
  rw [run_append _ _ [Event.timeout], run_cons, run_nil, timeoutFire_ui _ hpos]
  simp [resetForm]

/-- C8 for `movie.mkv` to `mp4`, one tick, a successful response, then the timeout. -/
theorem auto_reset_to_idle_witness :
    (run latinEngine (handleConvert
          (run latinEngine Sys.init [Event.fileSelect [⟨"movie.mkv", 1⟩], Event.selectTarget "mp4"]))
        [Event.tick 0 (1 / 2), Event.fetched 0 (FetchResult.response true),
         Event.blobbed 0 BlobResult.blob, Event.timeout]).ui.selectedFile = none ∧
    (run latinEngine (handleConvert
          (run latinEngine Sys.init [Event.fileSelect [⟨"movie.mkv", 1⟩], Event.selectTarget "mp4"]))
        [Event.tick 0 (1 / 2), Event.fetched 0 (FetchResult.response true),
         Event.blobbed 0 BlobResult.blob, Event.timeout]).ui.progress = 0 :=
  have h := auto_reset_to_idle latinEngine
    (run latinEngine Sys.init [Event.fileSelect [⟨"movie.mkv", 1⟩], Event.selectTarget "mp4"])
    ⟨"movie.mkv", 1⟩ (by decide) (by decide) (by decide)
    [Event.tick 0 (1 / 2)] [] [] (FetchResult.response true) BlobResult.blob
    (by simp [settles]) (by simp) (by simp)
  ⟨h.1, h.2.2.2.2.1⟩

/-- C9 as stated fails: `movie.mkv` is converted to `mp4` with success, `clip.mov` is then
accepted before the reset timeout expires, and when the timeout expires the newly accepted
file and its format are gone. -/
theorem reset_wipes_new_intake :
    (run latinEngine Sys.init [Event.fileSelect [⟨"movie.mkv", 1⟩], Event.selectTarget "mp4",
        Event.click, Event.fetched 0 (FetchResult.response true),
        Event.blobbed 0 BlobResult.blob,
        Event.fileSelect [⟨"clip.mov", 2⟩]]).ui.selectedFile = some ⟨"clip.mov", 2⟩ ∧
    (run latinEngine Sys.init [Event.fileSelect [⟨"movie.mkv", 1⟩], Event.selectTarget "mp4",
        Event.click, Event.fetched 0 (FetchResult.response true),
        Event.blobbed 0 BlobResult.blob,
        Event.fileSelect [⟨"clip.mov", 2⟩]]).ui.fromFormat = "mov" ∧
    (run latinEngine Sys.init [Event.fileSelect [⟨"movie.mkv", 1⟩], Event.selectTarget "mp4",
        Event.click, Event.fetched 0 (FetchResult.response true),
        Event.blobbed 0 BlobResult.blob,
        Event.fileSelect [⟨"clip.mov", 2⟩], Event.timeout]).ui.selectedFile = none ∧
    (run latinEngine Sys.init [Event.fileSelect [⟨"movie.mkv", 1⟩], Event.selectTarget "mp4",
        Event.click, Event.fetched 0 (FetchResult.response true),
        Event.blobbed 0 BlobResult.blob,
        Event.fileSelect [⟨"clip.mov", 2⟩], Event.timeout]).ui.fromFormat = "" := by
  decide

/-- C9, amended: the reset timeout is never cancelled.  When a submission has resolved and
a valid intake of a new file occurs before the timeout expires, the new file is accepted
with its extension, the timeout stays scheduled, and when it expires `resetForm` clears
the hooks, the newly accepted file and its format included. -/
theorem intake_does_not_cancel_reset (js : Engine) (s : Sys) (file : File)
    (hf : s.ui.selectedFile = some file)
    (ht : s.ui.toFormat ≠ "") (hne : s.ui.fromFormat ≠ s.ui.toFormat)
    (before between : List Event) (r : FetchResult) (b : BlobResult)
    (h1 : ∀ e ∈ before, settles s.calls.length e = false)
    (h2 : ∀ e ∈ between, settles s.calls.length e = false)
    (newFile : File) (hnew : js.toLowerCase (afterLastDot newFile.name) ∈ supportedFormats) :
    (run js (handleConvert s) (before ++ settlement s.calls.length r between b ++
        [Event.fileSelect [newFile]])).ui.selectedFile = some newFile ∧
    (run js (handleConvert s) (before ++ settlement s.calls.length r between b ++
        [Event.fileSelect [newFile]])).ui.fromFormat =
      js.toLowerCase (afterLastDot newFile.name) ∧
    0 < (run js (handleConvert s) (before ++ settlement s.calls.length r between b ++
        [Event.fileSelect [newFile]])).resetTimers ∧
    (run js (handleConvert s) (before ++ settlement s.calls.length r between b ++
        [Event.fileSelect [newFile]] ++ [Event.timeout])).ui.selectedFile = none ∧
    (run js (handleConvert s) (before ++ settlement s.calls.length r between b ++
        [Event.fileSelect [newFile]] ++ [Event.timeout])).ui.fromFormat = "" := by
  have hpos := run_resolved_timeout js s file hf ht hne before between
    [Event.fileSelect [newFile]] r b h1 h2 (by simp [isTimeout])
  refine ⟨?_, ?_, hpos, ?_, ?_⟩
  · rw [run_append _ _ [Event.fileSelect [newFile]], run_cons, run_nil]
    exact (handleFile_of_mem _ newFile hnew).1
  · rw [run_append _ _ [Event.fileSelect [newFile]], run_cons, run_nil]
    exact (handleFile_of_mem _ newFile hnew).2.1
  · rw [run_append _ _ [Event.timeout], run_cons, run_nil, timeoutFire_ui _ hpos]
    rfl
  · rw [run_append _ _ [Event.timeout], run_cons, run_nil, timeoutFire_ui _ hpos]
    rfl

/-- C9 amended, for `movie.mkv` converted to `mp4` and `clip.mov` accepted before the
timeout expires. -/
theorem intake_does_not_cancel_reset_witness :
    0 < (run latinEngine (handleConvert
          (run latinEngine Sys.init [Event.fileSelect [⟨"movie.mkv", 1⟩], Event.selectTarget "mp4"]))
        [Event.fetched 0 (FetchResult.response true), Event.blobbed 0 BlobResult.blob,
         Event.fileSelect [⟨"clip.mov", 2⟩]]).resetTimers ∧
    (run latinEngine (handleConvert
          (run latinEngine Sys.init [Event.fileSelect [⟨"movie.mkv", 1⟩], Event.selectTarget "mp4"]))
        [Event.fetched 0 (FetchResult.response true), Event.blobbed 0 BlobResult.blob,
         Event.fileSelect [⟨"clip.mov", 2⟩], Event.timeout]).ui.selectedFile = none :=
  have h := intake_does_not_cancel_reset latinEngine
    (run latinEngine Sys.init [Event.fileSelect [⟨"movie.mkv", 1⟩], Event.selectTarget "mp4"])
    ⟨"movie.mkv", 1⟩ (by decide) (by decide) (by decide)
    [] [] (FetchResult.response true) BlobResult.blob (by simp) (by simp)
    ⟨"clip.mov", 2⟩ (by decide)
  ⟨h.2.2.1, h.2.2.2.1⟩

end VideoConverter
